import Mathlib

/-!
# focus: global hotkeys that activate applications

A shallow embedding of `src/main.go` (package `main` of acroca/focus) and the
properties of its name resolution, handle construction, registration loop,
dispatch loop and activation scan.

Conventions of the embedding

* Go maps with string keys are association lists holding the entries of the map
  literal in the order written; indexing is `List.lookup`. The iteration order of
  a Go map is unspecified, so the slices `keyKeys` and `modKeys` (built once by
  `lo.Keys`) are parameters of `createHotkeys`, constrained in the theorems to be
  a permutation of the keys of the literal.
* `hotkey.Key` and `hotkey.Modifier` belong to the package
  `golang.design/x/hotkey`; only the constants that `main.go` names are
  represented, as constructors of an enumeration.
* `strings.ToLower` maps every rune through `unicode.ToLower`. Its ASCII part is
  embedded exactly; its action on runes from 128 upward comes from the Unicode
  tables of the Go standard library and is the parameter `u`.
* `log.Printf(...)` followed by `os.Exit(1)` is an `Except.error` carrying the
  format string and the operands of the call.
-/

set_option linter.dupNamespace false

namespace Focus

/-! ## Data model (main.go 21-29) -/

/-- Binding: one `[[bindings]]` entry of the configuration (main.go 25-29). -/
structure Binding where
  Key : String
  App : String
  Modifer : List String
  deriving DecidableEq

/-- Config: the decoded configuration file (main.go 21-23). -/
structure Config where
  Bindings : List Binding
  deriving DecidableEq

/-! ## Platform identifiers -/

/-- Modelled from the spec: the platform key identifiers `hotkey.Key`. The type and
its constants are declared in the external package `golang.design/x/hotkey`;
the constructors are the constants named by the `keyMap` literal, taken to be
pairwise distinct identifiers. -/
inductive Key where
  | Key0 | Key1 | Key2 | Key3 | Key4 | Key5 | Key6 | Key7 | Key8 | Key9
  | KeyA | KeyB | KeyC | KeyD | KeyE | KeyF | KeyG | KeyH | KeyI | KeyJ
  | KeyK | KeyL | KeyM | KeyN | KeyO | KeyP | KeyQ | KeyR | KeyS | KeyT
  | KeyU | KeyV | KeyW | KeyX | KeyY | KeyZ
  | KeyF1 | KeyF2 | KeyF3 | KeyF4 | KeyF5 | KeyF6
  | KeyF7 | KeyF8 | KeyF9 | KeyF10 | KeyF11 | KeyF12
  | KeyTab | KeySpace | KeyReturn
  deriving DecidableEq

/-- Modelled from the spec: the platform modifier identifiers `hotkey.Modifier`,
declared in the external package `golang.design/x/hotkey` as an unsigned integer
type. The constructors are the four constants named by the `modMap` literal,
taken to be pairwise distinct, and `zero`, the zero value of the type, which is
what a Go map index yields for an absent key. -/
inductive Modifier where
  | zero | ModCmd | ModCtrl | ModOption | ModShift
  deriving DecidableEq

/-! ## Lookup tables (main.go 37-109) -/

/-- The entries of the map literal `keyMap` (main.go 37-96), in the order written. -/
def keyMapEntries : List (String × Key) :=
  [ ("0", .Key0), ("1", .Key1), ("2", .Key2), ("3", .Key3), ("4", .Key4),
    ("5", .Key5), ("6", .Key6), ("7", .Key7), ("8", .Key8), ("9", .Key9),
    ("a", .KeyA), ("b", .KeyB), ("c", .KeyC), ("d", .KeyD), ("e", .KeyE),
    ("f", .KeyF), ("g", .KeyG), ("h", .KeyH), ("i", .KeyI), ("j", .KeyJ),
    ("k", .KeyK), ("l", .KeyL), ("m", .KeyM), ("n", .KeyN), ("o", .KeyO),
    ("p", .KeyP), ("q", .KeyQ), ("r", .KeyR), ("s", .KeyS), ("t", .KeyT),
    ("u", .KeyU), ("v", .KeyV), ("w", .KeyW), ("x", .KeyX), ("y", .KeyY),
    ("z", .KeyZ),
    ("f1", .KeyF1), ("f2", .KeyF2), ("f3", .KeyF3), ("f4", .KeyF4),
    ("f5", .KeyF5), ("f6", .KeyF6), ("f7", .KeyF7), ("f8", .KeyF8),
    ("f9", .KeyF9), ("f10", .KeyF10), ("f11", .KeyF11), ("f12", .KeyF12),
    ("tab", .KeyTab), ("space", .KeySpace), ("return", .KeyReturn) ]

/-- The map index `keyMap[name]` with its presence flag, as an option
(main.go 37-96 and the use at line 171). -/
def keyMap (name : String) : Option Key :=
  keyMapEntries.lookup name

/-- The entries of the map literal `modMap` (main.go 99-107), in the order written. -/
def modMapEntries : List (String × Modifier) :=
  [ ("cmd", .ModCmd), ("command", .ModCmd),
    ("ctrl", .ModCtrl), ("control", .ModCtrl),
    ("alt", .ModOption), ("option", .ModOption),
    ("shift", .ModShift) ]

/-- The map index `modMap[name]` with its presence flag, as an option
(main.go 99-107 and the use at line 180). -/
def modMap (name : String) : Option Modifier :=
  modMapEntries.lookup name

/-- The keys of a map visited in the given order: `lo.Keys` (main.go 97, 109). -/
def loKeys {β : Type} (entries : List (String × β)) : List String :=
  entries.map Prod.fst

/-! ## Case folding (`strings.ToLower`, main.go 171 and 180) -/

/-- The ASCII branch of `unicode.ToLower`: `A`-`Z` move down by 32. -/
def lowerASCII (r : Char) : Char :=
  if 'A' ≤ r ∧ r ≤ 'Z' then Char.ofNat (r.toNat + 32) else r

/-- The rune map `unicode.ToLower`; `u` is its action on runes from 128 upward. -/
def lowerRune (u : Char → Char) (r : Char) : Char :=
  if r.toNat < 128 then lowerASCII r else u r

/-- The call `strings.ToLower(s)`: every rune of `s` mapped through `unicode.ToLower`. -/
def ToLower (u : Char → Char) (s : String) : String :=
  ⟨s.data.map (lowerRune u)⟩

/-! ## Handles and their construction (main.go 143-195) -/

/-- Modelled from the spec: the value built by `hotkey.New(mods, k)` of the external
package `golang.design/x/hotkey`: it records the modifier slice and the key it
is given, and performs no registration. -/
structure Hotkey where
  mods : List Modifier
  key : Key
  deriving DecidableEq

/-- The handle type `hk` (main.go 143-146). -/
structure hk where
  hk : Hotkey
  app : String
  deriving DecidableEq

/-- An operand of a `log.Printf` call. -/
inductive Operand where
  | str (s : String)
  | strs (l : List String)
  | modifier (m : Modifier)
  deriving DecidableEq

/-- A `log.Printf(format, operands...)` call. -/
structure Printf where
  format : String
  operands : List Operand
  deriving DecidableEq

/-- The message of main.go 173, printed before `os.Exit(1)`: its first operand is
`binding.Key`, its second the slice `keyKeys`. -/
def unsupportedKey (bindingKey : String) (keyKeys : List String) : Printf :=
  ⟨"Error: unsupported key %q\nValid keys are: %v", [.str bindingKey, .strs keyKeys]⟩

/-- The message of main.go 182, printed before `os.Exit(1)`. Its first operand is the
variable `mod` in scope at that line: the `hotkey.Modifier` declared at line 180
by `mod, ok := modMap[...]`, which shadows the name being looked up. -/
def unsupportedModifier (mod : Modifier) (modKeys : List String) : Printf :=
  ⟨"Error: unsupported modifier %q\nValid modifiers are: %v", [.modifier mod, .strs modKeys]⟩

/-- The inner loop of `createHotkeys` (main.go 178-186) from the state `mods`: each
name is folded, looked up in `modMap`, and either appended to `mods` or reported
with `os.Exit(1)`. On a failed lookup the inner `mod` is the zero `Modifier`. -/
def resolveMods (u : Char → Char) (modKeys : List String) :
    List String → List Modifier → Except Printf (List Modifier)
  | [], mods => .ok mods
  | mod :: rest, mods =>
    match modMap (ToLower u mod) with
    | none => .error (unsupportedModifier Modifier.zero modKeys)
    | some m => resolveMods u modKeys rest (mods ++ [m])

/-- The outer loop of `createHotkeys` (main.go 169-192) from the state `keys`. -/
def createLoop (u : Char → Char) (keyKeys modKeys : List String) :
    List Binding → List hk → Except Printf (List hk)
  | [], keys => .ok keys
  | binding :: rest, keys =>
    match keyMap (ToLower u binding.Key) with
    | none => .error (unsupportedKey binding.Key keyKeys)
    | some k =>
      match resolveMods u modKeys binding.Modifer [] with
      | .error e => .error e
      | .ok mods => createLoop u keyKeys modKeys rest (keys ++ [⟨⟨mods, k⟩, binding.App⟩])

/-- The function `createHotkeys` (main.go 166-195). `Except.error p` stands for the
call `log.Printf p` followed by `os.Exit(1)`; the Go `error` result is `nil` on
every return, so it is not represented. -/
def createHotkeys (u : Char → Char) (keyKeys modKeys : List String) (config : Config) :
    Except Printf (List hk) :=
  createLoop u keyKeys modKeys config.Bindings []

/-! ## Registration and start-up (main.go 148-152, 203-217) -/

/-- Modelled from the spec: the platform hotkey service behind `(*hotkey.Hotkey).Register`
of the external package: from a service state `σ` a registration either fails
with an error or succeeds and moves the service to a new state. -/
structure HotkeyService (σ ε : Type) where
  Register : σ → Hotkey → Except ε σ

/-- What `fn` does that is visible outside it, in program order. -/
inductive Effect where
  | printf (p : Printf)
  | println (msg : String)
  | register (h : hk)
  | goHandle (h : hk)
  deriving DecidableEq

/-- How a run of `fn` leaves the registration phase. -/
inductive Outcome (ε : Type) where
  | exit (code : Nat)
  | panic (err : ε)
  | awaitSignal (keys : List hk)

/-- The method `register` (main.go 148-152): one `Register` call; an error panics. -/
def register {σ ε : Type} (svc : HotkeyService σ ε) (s : σ) (h : hk) : Except ε σ :=
  svc.Register s h.hk

/-- The loop of main.go 209-212 from service state `s`: `k.register()` then
`go k.handle()` for each handle in order; a panic ends the run. Returns the
effects in program order, and the service state after the last handle or the
panic value. -/
def registerLoop {σ ε : Type} (svc : HotkeyService σ ε) :
    σ → List hk → List Effect × Except ε σ
  | s, [] => ([], .ok s)
  | s, k :: rest =>
    match register svc s k with
    | .error err => ([.register k], .error err)
    | .ok s1 =>
      let r := registerLoop svc s1 rest
      (.register k :: .goHandle k :: r.1, r.2)

/-- The function `fn` (main.go 197-217) from line 203, for a configuration that
`loadConfig` returned, up to the receive `<-sigs` where it blocks. -/
def fn {σ ε : Type} (u : Char → Char) (keyKeys modKeys : List String)
    (svc : HotkeyService σ ε) (s : σ) (config : Config) : List Effect × Outcome ε :=
  match createHotkeys u keyKeys modKeys config with
  | .error p => ([.printf p], .exit 1)
  | .ok keys =>
    match registerLoop svc s keys with
    | (effs, .error err) => (.println "registering hotkeys" :: effs, .panic err)
    | (effs, .ok _) =>
      (.println "registering hotkeys" :: effs ++ [.println "hotkeys registered"],
        .awaitSignal keys)

/-! ## Dispatch and activation (main.go 154-158, 226-239) -/

/-- Modelled from the spec: a running application as enumerated by
`ws.RunningApplications()` of the external package darwinkit: `pid` tells
applications apart, `LocalizedName` is the display name. -/
structure RunningApplication where
  pid : Nat
  LocalizedName : String
  deriving DecidableEq

/-- The scan of the function `open` (main.go 232-237) over the enumeration `apps`:
the applications on which `ActivateWithOptions` is called, in call order. The
scan returns right after the first call. -/
def openScan (name : String) : List RunningApplication → List RunningApplication
  | [] => []
  | app :: rest => if app.LocalizedName = name then [app] else openScan name rest

/-- The function `open` (main.go 226-239), named `openApp` because `open` is reserved:
the activation calls it makes when the workspace enumerates `apps`. It has no
result and no error path. -/
def openApp (name : String) (apps : List RunningApplication) : List RunningApplication :=
  openScan name apps

/-- The method `handle` (main.go 154-158) on an event stream that delivers
`keydown` and is then closed: the arguments of its calls to `open`, in call
order. The events carry no data (`for range`). -/
def handle (h : hk) : List Unit → List String
  | [] => []
  | _ :: rest => h.app :: handle h rest

/-! ## The names of the specification -/

/-- The 51 key names of the specification: the digits 0-9, the letters a-z, f1-f12,
and tab, space, return. -/
def supportedKeyNames : List String :=
  "0123456789".data.map String.singleton
    ++ "abcdefghijklmnopqrstuvwxyz".data.map String.singleton
    ++ ["1", "2", "3", "4", "5", "6", "7", "8", "9", "10", "11", "12"].map (fun n => "f" ++ n)
    ++ ["tab", "space", "return"]

/-- The Go identifier of each key constant, as written in `main.go`. -/
def Key.ident : Key → String
  | .Key0 => "Key0" | .Key1 => "Key1" | .Key2 => "Key2" | .Key3 => "Key3"
  | .Key4 => "Key4" | .Key5 => "Key5" | .Key6 => "Key6" | .Key7 => "Key7"
  | .Key8 => "Key8" | .Key9 => "Key9"
  | .KeyA => "KeyA" | .KeyB => "KeyB" | .KeyC => "KeyC" | .KeyD => "KeyD"
  | .KeyE => "KeyE" | .KeyF => "KeyF" | .KeyG => "KeyG" | .KeyH => "KeyH"
  | .KeyI => "KeyI" | .KeyJ => "KeyJ" | .KeyK => "KeyK" | .KeyL => "KeyL"
  | .KeyM => "KeyM" | .KeyN => "KeyN" | .KeyO => "KeyO" | .KeyP => "KeyP"
  | .KeyQ => "KeyQ" | .KeyR => "KeyR" | .KeyS => "KeyS" | .KeyT => "KeyT"
  | .KeyU => "KeyU" | .KeyV => "KeyV" | .KeyW => "KeyW" | .KeyX => "KeyX"
  | .KeyY => "KeyY" | .KeyZ => "KeyZ"
  | .KeyF1 => "KeyF1" | .KeyF2 => "KeyF2" | .KeyF3 => "KeyF3" | .KeyF4 => "KeyF4"
  | .KeyF5 => "KeyF5" | .KeyF6 => "KeyF6" | .KeyF7 => "KeyF7" | .KeyF8 => "KeyF8"
  | .KeyF9 => "KeyF9" | .KeyF10 => "KeyF10" | .KeyF11 => "KeyF11" | .KeyF12 => "KeyF12"
  | .KeyTab => "KeyTab" | .KeySpace => "KeySpace" | .KeyReturn => "KeyReturn"

/-- The identifier of the key constant named like the key name `n`: `Key` followed
by `n` with its first letter in upper case (digit d gives Key d, letter x gives
Key X, fN gives KeyFN, tab gives KeyTab). -/
def likeNamed (n : String) : String :=
  match n.data with
  | [] => "Key"
  | c :: cs => ⟨'K' :: 'e' :: 'y' :: (if 'a' ≤ c ∧ c ≤ 'z' then Char.ofNat (c.toNat - 32) else c) :: cs⟩

/-- ASCII white space: space, tab, line feed, vertical tab, form feed, carriage return. -/
def isSpace (c : Char) : Bool :=
  c.toNat = 32 || (9 ≤ c.toNat && c.toNat ≤ 13)

/-- A binding whose key name and modifier names are all supported: each resolves
after case folding. -/
def supported (u : Char → Char) (b : Binding) : Bool :=
  (keyMap (ToLower u b.Key)).isSome
    && b.Modifer.all (fun m => (modMap (ToLower u m)).isSome)

/-- The handle `h` carries what the binding `b` names: its application name unchanged,
the identifier of its key, and the identifiers of its modifiers in the order
written. -/
def builtFrom (u : Char → Char) (b : Binding) (h : hk) : Prop :=
  h.app = b.App
    ∧ keyMap (ToLower u b.Key) = some h.hk.key
    ∧ h.hk.mods.map some = b.Modifer.map (fun m => modMap (ToLower u m))

/-- The service accepts the handles of a list one after the other from state `s`;
the result is the state it is left in. -/
def accepts {σ ε : Type} (svc : HotkeyService σ ε) : σ → List hk → Option σ
  | s, [] => some s
  | s, h :: rest =>
    match svc.Register s h.hk with
    | .ok s1 => accepts svc s1 rest
    | .error _ => none

/-- The effects of a registration loop that gets through `pre` and is rejected at `k`:
a register call and a dispatch loop for every handle of `pre`, then the one
register call for `k`. -/
def rejectedTrace (pre : List hk) (k : hk) : List Effect :=
  pre.flatMap (fun h => [Effect.register h, Effect.goHandle h]) ++ [Effect.register k]

/-- Whether an effect is a register call. -/
def Effect.isRegister : Effect → Bool
  | .register _ => true
  | _ => false

/-- Whether an effect starts a dispatch loop. -/
def Effect.isGoHandle : Effect → Bool
  | .goHandle _ => true
  | _ => false

/-- A platform hotkey service that refuses a combination it has already registered:
its state is the list of registered hotkeys. -/
def exclusiveService : HotkeyService (List Hotkey) String :=
  ⟨fun s h => if h ∈ s then .error "hotkey already registered" else .ok (h :: s)⟩

/-- A platform hotkey service that accepts every registration. -/
def permissiveService : HotkeyService Unit String :=
  ⟨fun _ _ => .ok ()⟩

/-! ## Lemmas on association lists -/

theorem lookup_some_mem {β : Type} (l : List (String × β)) (a : String) (b : β)
    (h : l.lookup a = some b) : (a, b) ∈ l := by
  induction l with
  | nil => simp at h
  | cons p l ih =>
    obtain ⟨a1, b1⟩ := p
    by_cases e : a = a1
    · subst e
      simp [List.lookup] at h
      simp [h]
    · have e1 : (a == a1) = false := by simpa using e
      simp [List.lookup, e1] at h
      exact List.mem_cons_of_mem _ (ih h)

theorem lookup_isSome_iff {β : Type} (l : List (String × β)) (a : String) :
    (l.lookup a).isSome = true ↔ a ∈ loKeys l := by
  induction l with
  | nil => simp [loKeys]
  | cons p l ih =>
    obtain ⟨a1, b1⟩ := p
    by_cases e : a = a1
    · subst e
      simp [List.lookup, loKeys]
    · have e1 : (a == a1) = false := by simpa using e
      simp only [loKeys] at ih
      simp [List.lookup, e1, loKeys, e, ih]

theorem lookup_none_iff {β : Type} (l : List (String × β)) (a : String) :
    l.lookup a = none ↔ a ∉ loKeys l := by
  rw [← lookup_isSome_iff]
  cases l.lookup a <;> simp

theorem keyNames_eq : loKeys keyMapEntries = supportedKeyNames := by decide

theorem keyEntries_ident : ∀ e ∈ keyMapEntries, e.2.ident = likeNamed e.1 := by decide

theorem keyEntries_inj :
    ∀ e ∈ keyMapEntries, ∀ f ∈ keyMapEntries, e.2 = f.2 → e.1 = f.1 := by decide

theorem keyNames_noSpace : ∀ n ∈ supportedKeyNames,
    (∀ c, n.data.head? = some c → isSpace c = false)
      ∧ (∀ c, n.data.getLast? = some c → isSpace c = false) := by
  decide

theorem lowerRune_space (u : Char → Char) (c : Char) (h : isSpace c = true) :
    lowerRune u c = c := by
  have h1 : c.toNat < 65 := by
    simp only [isSpace, Bool.or_eq_true, Bool.and_eq_true, decide_eq_true_eq] at h
    omega
  have h2 : ¬ ('A' ≤ c) := by
    intro hle
    have : (65 : Nat) ≤ c.toNat := hle
    omega
  have h3 : c.toNat < 128 := by omega
  simp [lowerRune, lowerASCII, h2, h3]

theorem ToLower_head (u : Char → Char) (s : String) (c : Char) (hc : isSpace c = true)
    (h : s.data.head? = some c) : (ToLower u s).data.head? = some c := by
  cases hs : s.data with
  | nil => rw [hs] at h; simp at h
  | cons a l =>
    rw [hs] at h
    simp only [List.head?_cons, Option.some.injEq] at h
    subst h
    simp [ToLower, hs, lowerRune_space u a hc]

theorem ToLower_getLast (u : Char → Char) (s : String) (c : Char) (hc : isSpace c = true)
    (h : s.data.getLast? = some c) : (ToLower u s).data.getLast? = some c := by
  have hm : (ToLower u s).data.getLast? = (s.data.getLast?).map (lowerRune u) := by
    simp only [ToLower]
    induction s.data with
    | nil => rfl
    | cons a l ih =>
      cases l with
      | nil => rfl
      | cons b l2 =>
        simp only [List.map_cons, List.getLast?_cons_cons] at ih ⊢
        exact ih
  rw [hm, h]
  simp [lowerRune_space u c hc]

/-! ## Lemmas on the loops of `createHotkeys` -/

theorem resolveMods_ok (u : Char → Char) (modKeys : List String) (names : List String) :
    ∀ acc : List Modifier,
      (names.all (fun m => (modMap (ToLower u m)).isSome) = true) →
      ∃ ids, resolveMods u modKeys names acc = .ok (acc ++ ids)
        ∧ ids.map some = names.map (fun m => modMap (ToLower u m)) := by
  induction names with
  | nil => intro acc _; exact ⟨[], by simp [resolveMods], rfl⟩
  | cons n rest ih =>
    intro acc h
    simp only [List.all_cons, Bool.and_eq_true] at h
    obtain ⟨hn, hrest⟩ := h
    cases hm : modMap (ToLower u n) with
    | none => rw [hm] at hn; simp at hn
    | some m =>
      obtain ⟨ids, h1, h2⟩ := ih (acc ++ [m]) hrest
      refine ⟨m :: ids, ?_, ?_⟩
      · simp only [resolveMods, hm]
        rw [h1]
        simp
      · simp [h2, hm]

theorem resolveMods_error (u : Char → Char) (modKeys : List String) (names : List String) :
    ∀ acc : List Modifier,
      (names.all (fun m => (modMap (ToLower u m)).isSome) = false) →
      resolveMods u modKeys names acc = .error (unsupportedModifier Modifier.zero modKeys) := by
  induction names with
  | nil => intro acc h; simp at h
  | cons n rest ih =>
    intro acc h
    cases hm : modMap (ToLower u n) with
    | none => simp [resolveMods, hm]
    | some m =>
      have hrest : rest.all (fun m => (modMap (ToLower u m)).isSome) = false := by
        simp only [List.all_cons, hm, Option.isSome_some, Bool.true_and] at h
        exact h
      simp only [resolveMods, hm]
      exact ih _ hrest

theorem createLoop_ok (u : Char → Char) (keyKeys modKeys : List String) (bs : List Binding) :
    ∀ acc : List hk,
      (∀ b ∈ bs, supported u b = true) →
      ∃ hs, createLoop u keyKeys modKeys bs acc = .ok (acc ++ hs)
        ∧ hs.length = bs.length
        ∧ ∀ (i : Nat) (b : Binding), bs[i]? = some b → ∃ h, hs[i]? = some h ∧ builtFrom u b h := by
  induction bs with
  | nil => intro acc _; exact ⟨[], by simp [createLoop], rfl, by simp⟩
  | cons b rest ih =>
    intro acc h
    have hb := h b (List.mem_cons_self _ _)
    simp only [supported, Bool.and_eq_true] at hb
    obtain ⟨hkey, hmods⟩ := hb
    cases hk : keyMap (ToLower u b.Key) with
    | none => rw [hk] at hkey; simp at hkey
    | some k =>
      obtain ⟨ids, hr, hids⟩ := resolveMods_ok u modKeys b.Modifer [] hmods
      obtain ⟨hs, h1, h2, h3⟩ :=
        ih (acc ++ [⟨⟨ids, k⟩, b.App⟩]) (fun x hx => h x (List.mem_cons_of_mem _ hx))
      refine ⟨⟨⟨ids, k⟩, b.App⟩ :: hs, ?_, ?_, ?_⟩
      · simp only [createLoop, hk, hr, List.nil_append]
        rw [h1]
        simp
      · simp [h2]
      · intro i x hx
        cases i with
        | zero =>
          simp only [List.getElem?_cons_zero, Option.some.injEq] at hx
          subst hx
          exact ⟨⟨⟨ids, k⟩, b.App⟩, by simp, rfl, hk, hids⟩
        | succ j =>
          simp only [List.getElem?_cons_succ] at hx ⊢
          exact h3 j x hx

theorem createLoop_error (u : Char → Char) (keyKeys modKeys : List String)
    (bs : List Binding) :
    ∀ acc : List hk,
      (∃ b ∈ bs, supported u b = false) →
      ∃ p, createLoop u keyKeys modKeys bs acc = .error p := by
  induction bs with
  | nil => intro acc h; obtain ⟨b, hb, _⟩ := h; simp at hb
  | cons b rest ih =>
    intro acc h
    cases hk : keyMap (ToLower u b.Key) with
    | none => exact ⟨unsupportedKey b.Key keyKeys, by simp [createLoop, hk]⟩
    | some k =>
      cases hm : b.Modifer.all (fun m => (modMap (ToLower u m)).isSome) with
      | false =>
        exact ⟨unsupportedModifier Modifier.zero modKeys,
          by simp [createLoop, hk, resolveMods_error u modKeys b.Modifer [] hm]⟩
      | true =>
        obtain ⟨ids, hr, _⟩ := resolveMods_ok u modKeys b.Modifer [] hm
        have hrest : ∃ x ∈ rest, supported u x = false := by
          obtain ⟨x, hx, hxs⟩ := h
          rcases List.mem_cons.1 hx with e | hx1
          · subst e
            simp [supported, hk, hm] at hxs
          · exact ⟨x, hx1, hxs⟩
        obtain ⟨p, hp⟩ := ih (acc ++ [⟨⟨ids, k⟩, b.App⟩]) hrest
        exact ⟨p, by simp only [createLoop, hk, hr, List.nil_append]; exact hp⟩

theorem createLoop_append (u : Char → Char) (keyKeys modKeys : List String)
    (pre rest : List Binding) :
    ∀ acc : List hk,
      (∀ b ∈ pre, supported u b = true) →
      ∃ hs, createLoop u keyKeys modKeys (pre ++ rest) acc
        = createLoop u keyKeys modKeys rest (acc ++ hs) := by
  induction pre with
  | nil => intro acc _; exact ⟨[], by simp⟩
  | cons b pre ih =>
    intro acc h
    have hb := h b (List.mem_cons_self _ _)
    simp only [supported, Bool.and_eq_true] at hb
    obtain ⟨hkey, hmods⟩ := hb
    cases hk : keyMap (ToLower u b.Key) with
    | none => rw [hk] at hkey; simp at hkey
    | some k =>
      obtain ⟨ids, hr, _⟩ := resolveMods_ok u modKeys b.Modifer [] hmods
      obtain ⟨hs, h1⟩ :=
        ih (acc ++ [⟨⟨ids, k⟩, b.App⟩]) (fun x hx => h x (List.mem_cons_of_mem _ hx))
      refine ⟨⟨⟨ids, k⟩, b.App⟩ :: hs, ?_⟩
      have e : (b :: pre) ++ rest = b :: (pre ++ rest) := rfl
      rw [e]
      simp only [createLoop, hk, hr, List.nil_append]
      rw [h1]
      simp

theorem count_of_map_some {α β : Type} [DecidableEq β] (f : α → Option β) (m : β)
    (names : List α) :
    ∀ mods : List β, mods.map some = names.map f →
      mods.count m = names.countP (fun n => decide (f n = some m)) := by
  induction names with
  | nil =>
    intro mods h
    cases mods with
    | nil => rfl
    | cons a l => simp at h
  | cons n rest ih =>
    intro mods h
    cases mods with
    | nil => simp at h
    | cons a l =>
      simp only [List.map_cons, List.cons.injEq] at h
      obtain ⟨h0, h1⟩ := h
      rw [List.count_cons, List.countP_cons, ih l h1, ← h0]
      simp

/-! ## Lemmas on the registration loop -/

theorem registerLoop_rejected {σ ε : Type} (svc : HotkeyService σ ε) (k : hk)
    (post : List hk) (s1 : σ) (err : ε) (hrej : svc.Register s1 k.hk = .error err)
    (pre : List hk) :
    ∀ s : σ, accepts svc s pre = some s1 →
      registerLoop svc s (pre ++ k :: post) = (rejectedTrace pre k, .error err) := by
  induction pre with
  | nil =>
    intro s h
    simp only [accepts, Option.some.injEq] at h
    subst h
    simp [registerLoop, register, hrej, rejectedTrace]
  | cons a pre ih =>
    intro s h
    cases hr : svc.Register s a.hk with
    | error e => simp [accepts, hr] at h
    | ok s2 =>
      simp only [accepts, hr] at h
      have e : (a :: pre) ++ k :: post = a :: (pre ++ k :: post) := rfl
      rw [e]
      simp only [registerLoop, register, hr]
      rw [ih s2 h]
      simp [rejectedTrace]

theorem rejectedTrace_counts (pre : List hk) (k : hk) :
    (rejectedTrace pre k).countP Effect.isRegister = pre.length + 1
      ∧ (rejectedTrace pre k).countP Effect.isGoHandle = pre.length := by
  induction pre with
  | nil => simp [rejectedTrace, Effect.isRegister, Effect.isGoHandle]
  | cons a pre ih =>
    simp only [rejectedTrace, List.flatMap_cons, List.cons_append, List.nil_append,
      List.countP_cons, List.length_cons] at ih ⊢
    simp only [Effect.isRegister, Effect.isGoHandle] at ih ⊢
    simp only [Bool.false_eq_true, if_false, if_true] at ih ⊢
    omega

/-! ## Theorems -/

/-- C1: key-name resolution, the `keyMap` lookup on the lower-cased string, succeeds
exactly on the 51 names of the specification (digits, letters, f1-f12, tab,
space, return), which are pairwise different; on success the identifier is the
key constant named like the name; two strings that resolve to the same
identifier have the same lower-cased form; and a string that starts or ends
with white space is rejected, such as a supported name with a blank before or
after it. -/
theorem keyMap_resolution (u : Char → Char) (s : String) :
    ((keyMap (ToLower u s)).isSome = true ↔ ToLower u s ∈ supportedKeyNames)
    ∧ supportedKeyNames.length = 51 ∧ supportedKeyNames.Nodup
    ∧ (∀ k, keyMap (ToLower u s) = some k → k.ident = likeNamed (ToLower u s))
    ∧ (∀ t k, keyMap (ToLower u s) = some k → keyMap (ToLower u t) = some k →
        ToLower u s = ToLower u t)
    ∧ (∀ c, isSpace c = true → s.data.head? = some c ∨ s.data.getLast? = some c →
        keyMap (ToLower u s) = none)
    ∧ keyMap (ToLower u "F1") = some Key.KeyF1
    ∧ keyMap (ToLower u " f1") = none ∧ keyMap (ToLower u "f1 ") = none := by
  refine ⟨?_, by decide, by decide, ?_, ?_, ?_, rfl, rfl, rfl⟩
  · rw [← keyNames_eq]
    exact lookup_isSome_iff keyMapEntries _
  · intro k hk
    exact keyEntries_ident _ (lookup_some_mem _ _ _ hk)
  · intro t k hs ht
    exact keyEntries_inj _ (lookup_some_mem _ _ _ hs) _ (lookup_some_mem _ _ _ ht) rfl
  · intro c hc hpos
    by_contra hne
    have hmem : ToLower u s ∈ supportedKeyNames := by
      rw [← keyNames_eq]
      apply (lookup_isSome_iff keyMapEntries _).1
      unfold keyMap at hne
      cases hl : keyMapEntries.lookup (ToLower u s) with
      | none => exact absurd hl hne
      | some k => rfl
    have hno := keyNames_noSpace _ hmem
    rcases hpos with h | h
    · have := hno.1 c (ToLower_head u s c hc h)
      rw [hc] at this
      exact Bool.noConfusion this
    · have := hno.2 c (ToLower_getLast u s c hc h)
      rw [hc] at this
      exact Bool.noConfusion this

/-- C2: modifier resolution, the `modMap` lookup on the lower-cased name, gives the
command modifier exactly for cmd and command, the control modifier exactly for
ctrl and control, the option modifier exactly for alt and option, the shift
modifier exactly for shift, in any letter casing, and rejects every string
whose lower-cased form is not one of these seven names. -/
theorem modMap_resolution (u : Char → Char) (s : String) :
    (modMap (ToLower u s) = some Modifier.ModCmd ↔
        ToLower u s = "cmd" ∨ ToLower u s = "command")
    ∧ (modMap (ToLower u s) = some Modifier.ModCtrl ↔
        ToLower u s = "ctrl" ∨ ToLower u s = "control")
    ∧ (modMap (ToLower u s) = some Modifier.ModOption ↔
        ToLower u s = "alt" ∨ ToLower u s = "option")
    ∧ (modMap (ToLower u s) = some Modifier.ModShift ↔ ToLower u s = "shift")
    ∧ (modMap (ToLower u s) = none ↔
        ToLower u s ∉ ["cmd", "command", "ctrl", "control", "alt", "option", "shift"])
    ∧ modMap (ToLower u "Cmd") = modMap (ToLower u "COMMAND")
    ∧ modMap (ToLower u "CTRL") = modMap (ToLower u "Control")
    ∧ modMap (ToLower u "aLT") = modMap (ToLower u "OPTION")
    ∧ modMap (ToLower u "Shift") = some Modifier.ModShift := by
  generalize ToLower u s = n
  refine ⟨⟨?_, ?_⟩, ⟨?_, ?_⟩, ⟨?_, ?_⟩, ⟨?_, ?_⟩, ?_, rfl, rfl, rfl, rfl⟩
  · intro h
    have := lookup_some_mem _ _ _ h
    simpa [modMapEntries] using this
  · rintro (rfl | rfl) <;> rfl
  · intro h
    have := lookup_some_mem _ _ _ h
    simpa [modMapEntries] using this
  · rintro (rfl | rfl) <;> rfl
  · intro h
    have := lookup_some_mem _ _ _ h
    simpa [modMapEntries] using this
  · rintro (rfl | rfl) <;> rfl
  · intro h
    have := lookup_some_mem _ _ _ h
    simpa [modMapEntries] using this
  · rintro rfl; rfl
  · have h := lookup_none_iff modMapEntries n
    have e : loKeys modMapEntries
        = ["cmd", "command", "ctrl", "control", "alt", "option", "shift"] := by decide
    rw [e] at h
    exact h

/-- C3: for a configuration of N bindings whose key and modifier names are all
supported, `createHotkeys` returns N handles in input order; the i-th handle
carries the i-th binding's application name unchanged, the identifier of its
key, and the identifiers of its modifiers in the order written. Bindings that
name the same key and modifiers are not merged: each gets its own handle. -/
theorem createHotkeys_handles (u : Char → Char) (keyKeys modKeys : List String)
    (config : Config) (h : ∀ b ∈ config.Bindings, supported u b = true) :
    ∃ keys, createHotkeys u keyKeys modKeys config = .ok keys
      ∧ keys.length = config.Bindings.length
      ∧ ∀ (i : Nat) (b : Binding), config.Bindings[i]? = some b →
          ∃ k, keys[i]? = some k
            ∧ k.app = b.App
            ∧ keyMap (ToLower u b.Key) = some k.hk.key
            ∧ k.hk.mods.map some = b.Modifer.map (fun m => modMap (ToLower u m)) := by
  obtain ⟨hs, h1, h2, h3⟩ := createLoop_ok u keyKeys modKeys config.Bindings [] h
  exact ⟨hs, by simpa [createHotkeys] using h1, h2, h3⟩

/-- Witness of C3: two bindings on the same key and modifier, in different letter
casing, give two separate handles in input order. -/
theorem createHotkeys_handles_witness :
    (∀ b ∈ (Config.mk [⟨"1", "Cursor", ["cmd", "Shift"]⟩,
        ⟨"1", "Safari", ["CMD", "shift"]⟩]).Bindings, supported id b = true)
    ∧ (∃ keys, createHotkeys id [] [] ⟨[⟨"1", "Cursor", ["cmd", "Shift"]⟩,
          ⟨"1", "Safari", ["CMD", "shift"]⟩]⟩ = .ok keys
        ∧ keys.length = 2
        ∧ ∀ (i : Nat) (b : Binding), (Config.mk [⟨"1", "Cursor", ["cmd", "Shift"]⟩,
              ⟨"1", "Safari", ["CMD", "shift"]⟩]).Bindings[i]? = some b →
            ∃ k, keys[i]? = some k
              ∧ k.app = b.App
              ∧ keyMap (ToLower id b.Key) = some k.hk.key
              ∧ k.hk.mods.map some = b.Modifer.map (fun m => modMap (ToLower id m)))
    ∧ createHotkeys id [] [] ⟨[⟨"1", "Cursor", ["cmd", "Shift"]⟩,
          ⟨"1", "Safari", ["CMD", "shift"]⟩]⟩
        = .ok [⟨⟨[.ModCmd, .ModShift], .Key1⟩, "Cursor"⟩,
            ⟨⟨[.ModCmd, .ModShift], .Key1⟩, "Safari"⟩] :=
  ⟨by decide, createHotkeys_handles id [] [] _ (by decide), rfl⟩

/-- C4: when some binding of the configuration, at any position, has an unsupported
key name or an unsupported modifier name, `createHotkeys` ends in the failure
exit without returning handles, and the run of `fn` consists of the failure
message and exit status 1: no register call is made and no dispatch loop is
started, also for the supported bindings before the unsupported one. -/
theorem fn_fail_fast {σ ε : Type} (u : Char → Char) (keyKeys modKeys : List String)
    (svc : HotkeyService σ ε) (s : σ) (config : Config)
    (h : ∃ b ∈ config.Bindings, supported u b = false) :
    ∃ p, createHotkeys u keyKeys modKeys config = .error p
      ∧ fn u keyKeys modKeys svc s config = ([Effect.printf p], Outcome.exit 1)
      ∧ (∀ e ∈ (fn u keyKeys modKeys svc s config).1,
          e.isRegister = false ∧ e.isGoHandle = false) := by
  obtain ⟨p, hp⟩ := createLoop_error u keyKeys modKeys config.Bindings [] h
  have hc : createHotkeys u keyKeys modKeys config = .error p := by
    simpa [createHotkeys] using hp
  have hf : fn u keyKeys modKeys svc s config = ([Effect.printf p], Outcome.exit 1) := by
    simp [fn, hc]
  refine ⟨p, hc, hf, ?_⟩
  intro e he
  rw [hf] at he
  simp only [List.mem_singleton] at he
  subst he
  exact ⟨rfl, rfl⟩

/-- Witness of C4: the second binding names the unsupported key f13; the supported
first binding is not registered, the run is the failure message and exit 1. -/
theorem fn_fail_fast_witness :
    (∃ b ∈ (Config.mk [⟨"1", "Cursor", ["cmd"]⟩, ⟨"F13", "Safari", ["cmd"]⟩]).Bindings,
        supported id b = false)
    ∧ (∃ p, createHotkeys id ["tab"] ["shift"]
            ⟨[⟨"1", "Cursor", ["cmd"]⟩, ⟨"F13", "Safari", ["cmd"]⟩]⟩ = .error p
        ∧ fn id ["tab"] ["shift"] permissiveService ()
            ⟨[⟨"1", "Cursor", ["cmd"]⟩, ⟨"F13", "Safari", ["cmd"]⟩]⟩
            = ([Effect.printf p], Outcome.exit 1)
        ∧ (∀ e ∈ (fn id ["tab"] ["shift"] permissiveService ()
            ⟨[⟨"1", "Cursor", ["cmd"]⟩, ⟨"F13", "Safari", ["cmd"]⟩]⟩).1,
            e.isRegister = false ∧ e.isGoHandle = false)) :=
  ⟨by decide, fn_fail_fast id ["tab"] ["shift"] permissiveService () _ (by decide)⟩

/-- C5: for every list of handles and every platform hotkey service, when the
service accepts the handles before position i and rejects the handle at
position i, the registration loop makes one register call and starts one
dispatch loop for each earlier handle, makes the one rejected register call,
and then panics with the error of the service: no second call for handle i, no
dispatch loop for it, nothing for the handles after it; the run of `fn` ends
in that panic. -/
theorem registerLoop_first_rejection {σ ε : Type} (svc : HotkeyService σ ε) (s s1 : σ)
    (pre : List hk) (k : hk) (post : List hk) (err : ε)
    (hacc : accepts svc s pre = some s1)
    (hrej : svc.Register s1 k.hk = .error err) :
    registerLoop svc s (pre ++ k :: post) = (rejectedTrace pre k, .error err)
    ∧ (registerLoop svc s (pre ++ k :: post)).1.countP Effect.isRegister = pre.length + 1
    ∧ (registerLoop svc s (pre ++ k :: post)).1.countP Effect.isGoHandle = pre.length
    ∧ (∀ (u : Char → Char) (keyKeys modKeys : List String) (config : Config),
        createHotkeys u keyKeys modKeys config = .ok (pre ++ k :: post) →
        fn u keyKeys modKeys svc s config
          = (Effect.println "registering hotkeys" :: rejectedTrace pre k, Outcome.panic err)) := by
  have h := registerLoop_rejected svc k post s1 err hrej pre s hacc
  refine ⟨h, ?_, ?_, ?_⟩
  · rw [h]; exact (rejectedTrace_counts pre k).1
  · rw [h]; exact (rejectedTrace_counts pre k).2
  · intro u keyKeys modKeys config hc
    simp [fn, hc, h]

/-- Witness of C5: two bindings on the same key and modifier; the service refuses the
second registration and the run panics after registering only the first. -/
theorem registerLoop_first_rejection_witness :
    accepts exclusiveService [] [⟨⟨[.ModCmd], .Key1⟩, "Cursor"⟩]
        = some [⟨[.ModCmd], .Key1⟩]
    ∧ exclusiveService.Register [⟨[.ModCmd], .Key1⟩]
        (hk.mk ⟨[.ModCmd], .Key1⟩ "Safari").hk = .error "hotkey already registered"
    ∧ createHotkeys id [] [] ⟨[⟨"1", "Cursor", ["cmd"]⟩, ⟨"1", "Safari", ["command"]⟩]⟩
        = .ok ([⟨⟨[.ModCmd], .Key1⟩, "Cursor"⟩] ++ ⟨⟨[.ModCmd], .Key1⟩, "Safari"⟩ :: [])
    ∧ fn id [] [] exclusiveService []
          ⟨[⟨"1", "Cursor", ["cmd"]⟩, ⟨"1", "Safari", ["command"]⟩]⟩
        = ([Effect.println "registering hotkeys",
            Effect.register ⟨⟨[.ModCmd], .Key1⟩, "Cursor"⟩,
            Effect.goHandle ⟨⟨[.ModCmd], .Key1⟩, "Cursor"⟩,
            Effect.register ⟨⟨[.ModCmd], .Key1⟩, "Safari"⟩],
           Outcome.panic "hotkey already registered") :=
  ⟨rfl, rfl, rfl,
    (registerLoop_first_rejection exclusiveService [] [⟨[.ModCmd], .Key1⟩]
      [⟨⟨[.ModCmd], .Key1⟩, "Cursor"⟩] ⟨⟨[.ModCmd], .Key1⟩, "Safari"⟩ []
      "hotkey already registered" rfl rfl).2.2.2 id [] []
      ⟨[⟨"1", "Cursor", ["cmd"]⟩, ⟨"1", "Safari", ["command"]⟩]⟩ rfl⟩

/-- C6: for every target name and every enumeration of running applications, `open`
activates at most one application: the first in enumeration order whose
display name equals the target exactly; when no display name equals the
target, such as when only a differently cased name is running, it activates
nothing. -/
theorem openApp_first_match (name : String) (apps : List RunningApplication) :
    (openApp name apps).length ≤ 1
    ∧ openApp name apps = (apps.find? (fun a => decide (a.LocalizedName = name))).toList
    ∧ (∀ (pre : List RunningApplication) (a : RunningApplication)
        (post : List RunningApplication), apps = pre ++ a :: post →
        a.LocalizedName = name → (∀ b ∈ pre, b.LocalizedName ≠ name) →
        openApp name apps = [a])
    ∧ ((∀ b ∈ apps, b.LocalizedName ≠ name) → openApp name apps = [])
    ∧ openApp "Cursor" [⟨10, "Finder"⟩, ⟨11, "cursor"⟩, ⟨12, "CURSOR"⟩] = []
    ∧ openApp "Cursor" [⟨11, "cursor"⟩, ⟨20, "Cursor"⟩, ⟨21, "Cursor"⟩] = [⟨20, "Cursor"⟩] := by
  have hfind : ∀ l : List RunningApplication,
      openScan name l = (l.find? (fun a => decide (a.LocalizedName = name))).toList := by
    intro l
    induction l with
    | nil => rfl
    | cons a l ih =>
      by_cases e : a.LocalizedName = name
      · simp [openScan, List.find?, e]
      · simp [openScan, List.find?, e, ih]
  have hnone : ∀ l : List RunningApplication,
      (∀ b ∈ l, b.LocalizedName ≠ name) → openScan name l = [] := by
    intro l
    induction l with
    | nil => intro _; rfl
    | cons a l ih =>
      intro h
      have e : a.LocalizedName ≠ name := h a (List.mem_cons_self _ _)
      simp only [openScan, e, if_false]
      exact ih (fun b hb => h b (List.mem_cons_of_mem _ hb))
  have hfirst : ∀ (pre : List RunningApplication) (a : RunningApplication)
      (post : List RunningApplication), a.LocalizedName = name →
      (∀ b ∈ pre, b.LocalizedName ≠ name) → openScan name (pre ++ a :: post) = [a] := by
    intro pre a post ha
    induction pre with
    | nil => intro _; simp [openScan, ha]
    | cons c pre ih =>
      intro h
      have e : c.LocalizedName ≠ name := h c (List.mem_cons_self _ _)
      have e2 : (c :: pre) ++ a :: post = c :: (pre ++ a :: post) := rfl
      rw [e2]
      simp only [openScan, e, if_false]
      exact ih (fun b hb => h b (List.mem_cons_of_mem _ hb))
  refine ⟨?_, hfind apps, ?_, hnone apps, by decide, by decide⟩
  · unfold openApp
    rw [hfind apps]
    cases apps.find? (fun a => decide (a.LocalizedName = name)) <;> simp
  · intro pre a post hsplit ha hpre
    subst hsplit
    exact hfirst pre a post ha hpre

/-- C7: for every handle and every finite sequence of k key-down events delivered
before the stream is closed, the dispatch loop `handle` makes exactly k calls
to `open`, each with the application name of the handle; the handle built
from the binding key 1, modifier cmd, application Cursor makes exactly one
call, for Cursor, on one key-down. -/
theorem handle_calls (h : hk) (keydown : List Unit) :
    handle h keydown = List.replicate keydown.length h.app
    ∧ (handle h keydown).length = keydown.length
    ∧ (∀ name ∈ handle h keydown, name = h.app)
    ∧ (∀ (u : Char → Char) (keyKeys modKeys : List String),
        createHotkeys u keyKeys modKeys ⟨[⟨"1", "Cursor", ["cmd"]⟩]⟩
            = .ok [⟨⟨[.ModCmd], .Key1⟩, "Cursor"⟩]
          ∧ handle ⟨⟨[.ModCmd], .Key1⟩, "Cursor"⟩ [()] = ["Cursor"]) := by
  have hrep : ∀ l : List Unit, handle h l = List.replicate l.length h.app := by
    intro l
    induction l with
    | nil => rfl
    | cons e l ih => simp [handle, ih, List.replicate_succ]
  refine ⟨hrep keydown, ?_, ?_, ?_⟩
  · rw [hrep]; simp
  · intro name hn
    rw [hrep] at hn
    exact (List.mem_replicate.1 hn).2
  · intro u keyKeys modKeys
    exact ⟨rfl, rfl⟩

/-- C8: when `createHotkeys` reaches a binding whose key name is unsupported, the
bindings before it being supported, it fails with the unsupported-key
message: the operand printed for the key is the key string as written in the
configuration, not its case-folded form, and the operand printed as the list
of valid keys holds each of the 51 supported key names exactly once and
nothing else, whatever order `lo.Keys` produced. -/
theorem unsupportedKey_message (u : Char → Char) (keyKeys modKeys : List String)
    (pre : List Binding) (b : Binding) (post : List Binding)
    (hperm : keyKeys.Perm (loKeys keyMapEntries))
    (hpre : ∀ x ∈ pre, supported u x = true)
    (hkey : keyMap (ToLower u b.Key) = none) :
    createHotkeys u keyKeys modKeys ⟨pre ++ b :: post⟩
        = .error ⟨"Error: unsupported key %q\nValid keys are: %v",
            [Operand.str b.Key, Operand.strs keyKeys]⟩
    ∧ keyKeys.length = 51
    ∧ (∀ n ∈ supportedKeyNames, keyKeys.count n = 1)
    ∧ (∀ n ∈ keyKeys, n ∈ supportedKeyNames) := by
  rw [keyNames_eq] at hperm
  refine ⟨?_, ?_, ?_, ?_⟩
  · obtain ⟨hs, h1⟩ := createLoop_append u keyKeys modKeys pre (b :: post) [] hpre
    simp only [createHotkeys]
    rw [h1]
    simp [createLoop, hkey, unsupportedKey]
  · rw [hperm.length_eq]; decide
  · intro n hn
    rw [hperm.count_eq]
    exact List.count_eq_one_of_mem (by decide) hn
  · intro n hn
    exact hperm.mem_iff.1 hn

/-- Witness of C8: the key is written `F13`; the message prints `F13`, not `f13`. -/
theorem unsupportedKey_message_witness :
    (loKeys keyMapEntries).reverse.Perm (loKeys keyMapEntries)
    ∧ (∀ x ∈ [Binding.mk "1" "Cursor" ["cmd"]], supported id x = true)
    ∧ keyMap (ToLower id (Binding.mk "F13" "Safari" ["cmd"]).Key) = none
    ∧ ToLower id "F13" = "f13"
    ∧ createHotkeys id (loKeys keyMapEntries).reverse ["shift"]
          ⟨[⟨"1", "Cursor", ["cmd"]⟩] ++ ⟨"F13", "Safari", ["cmd"]⟩ :: [⟨"2", "Mail", []⟩]⟩
        = .error ⟨"Error: unsupported key %q\nValid keys are: %v",
            [Operand.str "F13", Operand.strs (loKeys keyMapEntries).reverse]⟩ :=
  ⟨List.reverse_perm _, by decide, by decide, by decide,
    (unsupportedKey_message id (loKeys keyMapEntries).reverse ["shift"]
      [⟨"1", "Cursor", ["cmd"]⟩] ⟨"F13", "Safari", ["cmd"]⟩ [⟨"2", "Mail", []⟩]
      (List.reverse_perm _) (by decide) (by decide)).1⟩

/-- C9, the behaviour of the code: for the binding key 1, application Cursor,
modifiers hyper, `createHotkeys` fails with the unsupported-modifier message
whose first operand is the zero `Modifier` of the failed map index, not the
name: no operand is the string hyper, the message is the same for the
unsupported name meta, and for any supported key and unsupported modifier name
the message is this one. -/
theorem unsupportedModifier_message (u : Char → Char) (keyKeys modKeys : List String) :
    createHotkeys u keyKeys modKeys ⟨[⟨"1", "Cursor", ["hyper"]⟩]⟩
        = .error ⟨"Error: unsupported modifier %q\nValid modifiers are: %v",
            [Operand.modifier Modifier.zero, Operand.strs modKeys]⟩
    ∧ Operand.str "hyper" ∉
        [Operand.modifier Modifier.zero, Operand.strs modKeys]
    ∧ createHotkeys u keyKeys modKeys ⟨[⟨"1", "Cursor", ["hyper"]⟩]⟩
        = createHotkeys u keyKeys modKeys ⟨[⟨"1", "Cursor", ["meta"]⟩]⟩
    ∧ (∀ (key app name : String) (k : Key), keyMap (ToLower u key) = some k →
        modMap (ToLower u name) = none →
        createHotkeys u keyKeys modKeys ⟨[⟨key, app, [name]⟩]⟩
          = .error ⟨"Error: unsupported modifier %q\nValid modifiers are: %v",
              [Operand.modifier Modifier.zero, Operand.strs modKeys]⟩) := by
  refine ⟨rfl, by simp, rfl, ?_⟩
  intro key app name k hk hm
  simp [createHotkeys, createLoop, hk, resolveMods, hm, unsupportedModifier]

/-- C10 fails as stated: for the supported binding key 1, application Cursor,
modifiers cmd and command, the handle built by `createHotkeys` is given the
command modifier twice. -/
theorem createHotkeys_mods_duplicate :
    supported id ⟨"1", "Cursor", ["cmd", "command"]⟩ = true
    ∧ ∃ k, createHotkeys id (loKeys keyMapEntries) (loKeys modMapEntries)
          ⟨[⟨"1", "Cursor", ["cmd", "command"]⟩]⟩ = .ok [k]
        ∧ k.hk.mods = [Modifier.ModCmd, Modifier.ModCmd]
        ∧ k.hk.mods.count Modifier.ModCmd = 2
        ∧ ¬ k.hk.mods.Nodup :=
  ⟨by decide, ⟨⟨[.ModCmd, .ModCmd], .Key1⟩, "Cursor"⟩, rfl, rfl, by decide, by decide⟩

/-- C10 as amended: for a configuration whose names are all supported, the modifiers
given to the hotkey constructor for a binding are the identifiers of the
listed names, one per name in the order written (the j-th identifier is the
resolution of the j-th name), with nothing removed: an identifier occurs as
many times as the list has names that resolve to it, so the identifiers are
pairwise different exactly when no two entries of the list resolve to the
same modifier. -/
theorem createHotkeys_mods_count (u : Char → Char) (keyKeys modKeys : List String)
    (config : Config) (h : ∀ b ∈ config.Bindings, supported u b = true) :
    ∃ keys, createHotkeys u keyKeys modKeys config = .ok keys
      ∧ ∀ (i : Nat) (b : Binding), config.Bindings[i]? = some b →
          ∃ k, keys[i]? = some k
            ∧ k.hk.mods.map some = b.Modifer.map (fun n => modMap (ToLower u n))
            ∧ (∀ (j : Nat) (n : String), b.Modifer[j]? = some n →
                ∃ m, k.hk.mods[j]? = some m ∧ modMap (ToLower u n) = some m)
            ∧ k.hk.mods.length = b.Modifer.length
            ∧ (∀ m : Modifier, k.hk.mods.count m
                = b.Modifer.countP (fun n => decide (modMap (ToLower u n) = some m)))
            ∧ (k.hk.mods.Nodup ↔ (b.Modifer.map (fun n => modMap (ToLower u n))).Nodup) := by
  obtain ⟨hs, h1, _, h3⟩ := createLoop_ok u keyKeys modKeys config.Bindings [] h
  refine ⟨hs, by simpa [createHotkeys] using h1, ?_⟩
  intro i b hb
  obtain ⟨k, hk1, _, _, hmods⟩ := h3 i b hb
  refine ⟨k, hk1, hmods, ?_, ?_, ?_, ?_⟩
  · intro j n hn
    have hj : (k.hk.mods.map some)[j]? = (b.Modifer.map (fun n => modMap (ToLower u n)))[j]? := by
      rw [hmods]
    rw [List.getElem?_map, List.getElem?_map, hn] at hj
    cases hm : k.hk.mods[j]? with
    | none => rw [hm] at hj; simp at hj
    | some m =>
      rw [hm] at hj
      simp only [Option.map_some'] at hj
      exact ⟨m, rfl, (Option.some.inj hj).symm⟩
  · have := congrArg List.length hmods
    simpa using this
  · intro m
    exact count_of_map_some _ m b.Modifer k.hk.mods hmods
  · rw [← hmods]
    exact (List.nodup_map_iff (Option.some_injective _)).symm

/-- Witness of C10 as amended: shift then cmd are passed in that order, once each;
cmd and command resolve to the same modifier, passed twice. -/
theorem createHotkeys_mods_count_witness :
    (∀ b ∈ (Config.mk [⟨"1", "Cursor", ["shift", "cmd"]⟩,
        ⟨"2", "Safari", ["cmd", "command"]⟩]).Bindings, supported id b = true)
    ∧ (∃ keys, createHotkeys id [] [] ⟨[⟨"1", "Cursor", ["shift", "cmd"]⟩,
          ⟨"2", "Safari", ["cmd", "command"]⟩]⟩ = .ok keys
        ∧ ∀ (i : Nat) (b : Binding), (Config.mk [⟨"1", "Cursor", ["shift", "cmd"]⟩,
            ⟨"2", "Safari", ["cmd", "command"]⟩]).Bindings[i]? = some b →
          ∃ k, keys[i]? = some k
            ∧ k.hk.mods.map some = b.Modifer.map (fun n => modMap (ToLower id n))
            ∧ (∀ (j : Nat) (n : String), b.Modifer[j]? = some n →
                ∃ m, k.hk.mods[j]? = some m ∧ modMap (ToLower id n) = some m)
            ∧ k.hk.mods.length = b.Modifer.length
            ∧ (∀ m : Modifier, k.hk.mods.count m
                = b.Modifer.countP (fun n => decide (modMap (ToLower id n) = some m)))
            ∧ (k.hk.mods.Nodup ↔ (b.Modifer.map (fun n => modMap (ToLower id n))).Nodup))
    ∧ createHotkeys id [] [] ⟨[⟨"1", "Cursor", ["shift", "cmd"]⟩,
          ⟨"2", "Safari", ["cmd", "command"]⟩]⟩
        = .ok [⟨⟨[.ModShift, .ModCmd], .Key1⟩, "Cursor"⟩,
            ⟨⟨[.ModCmd, .ModCmd], .Key2⟩, "Safari"⟩] :=
  ⟨by decide, createHotkeys_mods_count id [] [] _ (by decide), rfl⟩

end Focus
